import Mathlib

/-!
# The Paxos acceptor of `pkg/paxos/acceptor.go`

A shallow embedding of the acceptor's message handler.  The three local
variables `rnd`, `vrnd`, `vval` of `acceptor` become a `State`; the closure
`update` becomes a function from a state and an incoming message to the new
state and the list of messages handed to the sink; the `for in := range ins`
loop becomes a left-to-right run over a finite list of messages.
-/

namespace Paxos

/-! ## Data model -/

/-- Modelled from the spec: the message envelope `Msg`, whose declaration is not
part of `acceptor.go`.  The acceptor reads `Seqn`, `From`, `Cmd`, `Body` and
writes `Seqn`, `Cmd`, `To`, `Body`; node identities and sequence numbers are
unsigned integers that are only ever copied. -/
structure Msg where
  Seqn : Nat
  From : Nat
  To : Nat
  Cmd : String
  Body : String
deriving DecidableEq, Repr

/-- The local variables `rnd, vrnd uint64` and `vval string` of `acceptor`. -/
structure State where
  rnd : Nat
  vrnd : Nat
  vval : String
deriving DecidableEq, Repr

/-- The zero-valued variables `acceptor` starts with. -/
def fresh : State := ⟨0, 0, ""⟩

/-- Index of the round in an `INVITE` body (`iRnd = iota`). -/
def iRnd : Nat := 0
/-- Number of parts of an `INVITE` body. -/
def iNumParts : Nat := 1
/-- Index of the round in a `NOMINATE` body (`nRnd = iota`). -/
def nRnd : Nat := 0
/-- Index of the value in a `NOMINATE` body. -/
def nVal : Nat := 1
/-- Number of parts of a `NOMINATE` body. -/
def nNumParts : Nat := 2

/-! ## Codec helpers -/

/-- Cut a character list at its first colon: the text before it and the text
after it, or `none` when there is no colon. -/
def cutColon : List Char → Option (List Char × List Char)
  | [] => none
  | c :: cs =>
    if c = ':' then some ([], cs)
    else match cutColon cs with
      | none => none
      | some (a, b) => some (c :: a, b)

/-- Split at colons into at most `n` parts, the last part being the unsplit
remainder. -/
def splitN : Nat → List Char → List (List Char)
  | 0, _ => []
  | 1, cs => [cs]
  | n + 2, cs =>
    match cutColon cs with
    | none => [cs]
    | some (a, rest) => a :: splitN (n + 1) rest

/-- Modelled from the spec: `splitExactly`, which is called by `acceptor.go` but
defined elsewhere.  The body is split at colons into `n` parts, the last part
being the remainder after the delimiter; the call fails (`none`, the
malformed-message failure) when the part count is not exactly `n`. -/
def splitExactly (body : String) (n : Nat) : Option (List String) :=
  let parts := splitN n body.data
  if parts.length = n then some (parts.map String.mk) else none

/-- Value of a decimal digit character. -/
def digitVal (c : Char) : Option Nat :=
  if 48 ≤ c.toNat ∧ c.toNat ≤ 57 then some (c.toNat - 48) else none

/-- Read a run of decimal digits, most significant first, onto `acc`. -/
def parseDigits : List Char → Nat → Option Nat
  | [], acc => some acc
  | c :: cs, acc =>
    match digitVal c with
    | none => none
    | some d => parseDigits cs (acc * 10 + d)

/-- Modelled from the spec: `dtoui64`, which is called by `acceptor.go` but
defined elsewhere.  The text is read as an unsigned decimal integer; the call
fails (`none`, the malformed-message failure) when the text is empty, holds a
character that is not a decimal digit, or denotes a number that does not fit
in 64 bits. -/
def dtoui64 (s : String) : Option Nat :=
  match s.data with
  | [] => none
  | c :: cs =>
    match parseDigits (c :: cs) 0 with
    | none => none
    | some n => if n < 2 ^ 64 then some n else none

/-- The text `fmt.Sprintf("%d:%d:%s", i, vrnd, vval)`. -/
def rsvpBody (i vrnd : Nat) (vval : String) : String :=
  Nat.repr i ++ ":" ++ Nat.repr vrnd ++ ":" ++ vval

/-- The text `fmt.Sprintf("%d:%s", i, vval)`. -/
def voteBody (i : Nat) (vval : String) : String :=
  Nat.repr i ++ ":" ++ vval

/-! ## The handler -/

/-- The body of the closure `update`, up to a failure raised by `splitExactly`
or `dtoui64`: `none` is such a failure, otherwise the new values of
`rnd, vrnd, vval` and the messages passed to `outs.Put`, in order. -/
def updateBody (st : State) (m : Msg) : Option (State × List Msg) :=
  if m.Cmd = "INVITE" then
    match splitExactly m.Body iNumParts with
    | none => none
    | some bodyParts =>
      match bodyParts[iRnd]? with
      | none => none
      | some part =>
        match dtoui64 part with
        | none => none
        | some i =>
          if i ≤ st.rnd then some (st, [])
          else if i > st.rnd then
            some ({ st with rnd := i },
              [{ Seqn := m.Seqn, From := 0, To := m.From, Cmd := "RSVP",
                 Body := rsvpBody i st.vrnd st.vval }])
          else some (st, [])
  else if m.Cmd = "NOMINATE" then
    match splitExactly m.Body nNumParts with
    | none => none
    | some bodyParts =>
      match bodyParts[nRnd]? with
      | none => none
      | some part =>
        match dtoui64 part with
        | none => none
        | some i =>
          if i < st.rnd ∨ i = st.vrnd then some (st, [])
          else
            match bodyParts[nVal]? with
            | none => none
            | some v =>
              some ({ rnd := i, vrnd := i, vval := v },
                [{ Seqn := m.Seqn, From := 0, To := 0, Cmd := "VOTE",
                   Body := voteBody i v }])
  else some (st, [])

/-- Modelled from the spec: `swallowContinue`, which `update` defers but which
is defined elsewhere.  A malformed-message failure raised while one message is
handled is caught at the boundary of that message and becomes a silent no-op:
nothing is emitted and the variables keep the values `st` they had; a handler
that did not fail is left as it is. -/
def swallowContinue (st : State) (r : Option (State × List Msg)) : State × List Msg :=
  match r with
  | none => (st, [])
  | some x => x

/-- The closure `update` with its `defer swallowContinue()`.  Both helpers that
can fail are called before the first assignment to `rnd`, `vrnd` or `vval`, so
the variables at a failure are those before the message. -/
def update (st : State) (m : Msg) : State × List Msg :=
  swallowContinue st (updateBody st m)

/-- The loop `for in := range ins` with body `update(in)`, from a given state:
the final state and everything put to the sink, in emission order. -/
def run (st : State) : List Msg → State × List Msg
  | [] => (st, [])
  | m :: ms =>
    let r := update st m
    let r' := run r.1 ms
    (r'.1, r.2 ++ r'.2)

/-- The function `acceptor` on a finite input stream. -/
def acceptor (ins : List Msg) : State × List Msg :=
  run fresh ins

/-- An `INVITE` message with the given envelope and round text. -/
def invite (seqn sender : Nat) (body : String) : Msg :=
  { Seqn := seqn, From := sender, To := 0, Cmd := "INVITE", Body := body }

/-- A `NOMINATE` message with the given envelope and body text. -/
def nominate (seqn sender : Nat) (body : String) : Msg :=
  { Seqn := seqn, From := sender, To := 0, Cmd := "NOMINATE", Body := body }

/-! ## Decoded views used to state the properties -/

/-- The round carried by an `INVITE` body, as `update` reads it: `splitExactly`
into `iNumParts` parts, then `dtoui64` of part `iRnd`. -/
def decodeInvite (body : String) : Option Nat :=
  match splitExactly body iNumParts with
  | none => none
  | some bodyParts =>
    match bodyParts[iRnd]? with
    | none => none
    | some part => dtoui64 part

/-- The round and value carried by a `NOMINATE` body, as `update` reads it:
`splitExactly` into `nNumParts` parts, `dtoui64` of part `nRnd`, part `nVal`
verbatim.  A `VOTE` body has the same layout. -/
def decodeNominate (body : String) : Option (Nat × String) :=
  match splitExactly body nNumParts with
  | none => none
  | some bodyParts =>
    match bodyParts[nRnd]?, bodyParts[nVal]? with
    | some part, some v =>
      match dtoui64 part with
      | none => none
      | some i => some (i, v)
    | _, _ => none

/-- The fields `Round:VotedRound:VotedValue` of an `RSVP` body. -/
def decodeRsvp (body : String) : Option (Nat × Nat × String) :=
  match splitExactly body 3 with
  | none => none
  | some bodyParts =>
    match bodyParts[0]?, bodyParts[1]?, bodyParts[2]? with
    | some p0, some p1, some v =>
      match dtoui64 p0, dtoui64 p1 with
      | some i, some vr => some (i, vr, v)
      | _, _ => none
    | _, _, _ => none

/-- The round and value of an emitted message when it is a `VOTE`. -/
def voteOf (m : Msg) : Option (Nat × String) :=
  if m.Cmd = "VOTE" then decodeNominate m.Body else none

/-- The round, voted round and voted value of an emitted message when it is an
`RSVP`. -/
def rsvpOf (m : Msg) : Option (Nat × Nat × String) :=
  if m.Cmd = "RSVP" then decodeRsvp m.Body else none

/-- Whether a message is an `INVITE` or `NOMINATE` whose body fails to decode. -/
def malformed (m : Msg) : Bool :=
  (m.Cmd = "INVITE" && (decodeInvite m.Body).isNone) ||
  (m.Cmd = "NOMINATE" && (decodeNominate m.Body).isNone)

/-- The reachable states: the final states of `acceptor` over all finite input
sequences. -/
def Reachable (st : State) : Prop :=
  ∃ ins : List Msg, (acceptor ins).1 = st

/-- The round of an emitted message when it is a `VOTE`. -/
def voteRound (o : Msg) : Option Nat :=
  (voteOf o).map Prod.fst

/-- How many of the emitted messages are a `VOTE` whose round is `r`. -/
def votesFor (r : Nat) (outs : List Msg) : Nat :=
  outs.countP (fun o => voteRound o = some r)

/-- The rounds of the decodable `INVITE` bodies of a sequence, in order. -/
def inviteRounds (ins : List Msg) : List Nat :=
  ins.filterMap (fun m => decodeInvite m.Body)

/-- The largest round of a list, `0` for the empty list. -/
def maxRound (rs : List Nat) : Nat :=
  rs.foldr max 0

/-- The most recent vote among emitted messages: the round and value of the last
`VOTE` of `outs`, or `acc` when `outs` holds no `VOTE`. -/
def lastVote (acc : Nat × String) : List Msg → Nat × String
  | [] => acc
  | o :: os =>
    match voteOf o with
    | some p => lastVote p os
    | none => lastVote acc os

/-- The round carried by an emitted message: the first field of an `RSVP` body
or of a `VOTE` body. -/
def outRound (o : Msg) : Option Nat :=
  if o.Cmd = "RSVP" then (decodeRsvp o.Body).map (fun p => p.1)
  else if o.Cmd = "VOTE" then (decodeNominate o.Body).map (fun p => p.1)
  else none

/-- The round of an incoming message when it is a well-formed `INVITE` or a
well-formed `NOMINATE`. -/
def inRound (m : Msg) : Option Nat :=
  if m.Cmd = "INVITE" then decodeInvite m.Body
  else if m.Cmd = "NOMINATE" then (decodeNominate m.Body).map (fun p => p.1)
  else none

/-- The output `o` with the envelope fields it would have had as a reaction to
`m`: the sequence number of `m`, and for an `RSVP` the sender of `m` as
destination. -/
def restamp (m : Msg) (o : Msg) : Msg :=
  { o with Seqn := m.Seqn, To := if o.Cmd = "RSVP" then m.From else o.To }

/-! ## Basic facts about the codec helpers -/

theorem splitN_length_le (n : Nat) : ∀ cs : List Char, (splitN n cs).length ≤ n := by
  induction n using Nat.strong_induction_on with
  | _ n ih =>
    intro cs
    match n with
    | 0 => simp [splitN]
    | 1 => simp [splitN]
    | k + 2 =>
      simp only [splitN]
      cases h : cutColon cs with
      | none => simp
      | some p =>
        obtain ⟨a, rest⟩ := p
        have := ih (k + 1) (by omega) rest
        simp only [List.length_cons]
        omega

theorem splitExactly_length {body : String} {n : Nat} {parts : List String}
    (h : splitExactly body n = some parts) : parts.length = n := by
  unfold splitExactly at h
  simp only at h
  split at h
  · rename_i hl
    simp only [Option.some.injEq] at h
    rw [← h, List.length_map, hl]
  · simp at h

theorem digitVal_digitChar (k : Nat) (hk : k < 10) : digitVal (Nat.digitChar k) = some k := by
  interval_cases k <;> rfl

theorem digitVal_ne_colon {c : Char} {d : Nat} (h : digitVal c = some d) : c ≠ ':' := by
  rintro rfl
  simp [digitVal] at h

theorem parseDigits_toDigitsCore (fuel : Nat) :
    ∀ (n : Nat) (ds : List Char), n < fuel →
      parseDigits (Nat.toDigitsCore 10 fuel n ds) 0 = parseDigits ds n := by
  induction fuel with
  | zero => intro n ds h; omega
  | succ f ih =>
    intro n ds h
    simp only [Nat.toDigitsCore]
    have hd := digitVal_digitChar (n % 10) (Nat.mod_lt _ (by decide))
    split
    · rename_i h0
      simp only [parseDigits, hd]
      congr 1
      omega
    · rename_i h0
      rw [ih (n / 10) _ (by omega)]
      simp only [parseDigits, hd]
      congr 1
      omega

theorem toDigitsCore_no_colon (fuel : Nat) :
    ∀ (n : Nat) (ds : List Char), (∀ c ∈ ds, c ≠ ':') →
      ∀ c ∈ Nat.toDigitsCore 10 fuel n ds, c ≠ ':' := by
  induction fuel with
  | zero => intro n ds h; simpa [Nat.toDigitsCore] using h
  | succ f ih =>
    intro n ds h
    simp only [Nat.toDigitsCore]
    have hd := digitVal_ne_colon (digitVal_digitChar (n % 10) (Nat.mod_lt _ (by decide)))
    have h' : ∀ c ∈ Nat.digitChar (n % 10) :: ds, c ≠ ':' := by
      intro c hc
      rcases List.mem_cons.1 hc with rfl | hc
      · exact hd
      · exact h c hc
    split
    · exact h'
    · exact ih _ _ h'

theorem toDigitsCore_ne_nil (fuel : Nat) (n : Nat) (ds : List Char) (hf : 0 < fuel) :
    Nat.toDigitsCore 10 fuel n ds ≠ [] := by
  induction fuel generalizing n ds with
  | zero => omega
  | succ f ih =>
    simp only [Nat.toDigitsCore]
    split
    · simp
    · cases f with
      | zero => simp [Nat.toDigitsCore]
      | succ g => exact ih _ _ (by omega)

theorem cutColon_append (a rest : List Char) (h : ∀ c ∈ a, c ≠ ':') :
    cutColon (a ++ ':' :: rest) = some (a, rest) := by
  induction a with
  | nil => simp [cutColon]
  | cons c cs ih =>
    have hc : c ≠ ':' := h c (List.mem_cons_self _ _)
    have := ih (fun x hx => h x (List.mem_cons_of_mem _ hx))
    simp [cutColon, hc, this]

theorem repr_data (i : Nat) : (Nat.repr i).data = Nat.toDigits 10 i := rfl

theorem dtoui64_repr (i : Nat) (hi : i < 2 ^ 64) : dtoui64 (Nat.repr i) = some i := by
  unfold dtoui64
  rw [repr_data]
  have hne : Nat.toDigits 10 i ≠ [] := toDigitsCore_ne_nil _ _ _ (by omega)
  have hp : parseDigits (Nat.toDigits 10 i) 0 = some i := by
    have := parseDigits_toDigitsCore (i + 1) i [] (by omega)
    simpa [Nat.toDigits, parseDigits] using this
  cases hl : Nat.toDigits 10 i with
  | nil => exact absurd hl hne
  | cons c cs =>
    simp only
    rw [← hl, hp]
    have hi' : i < 18446744073709551616 := by simpa using hi
    simp [hi']

theorem dtoui64_lt {s : String} {i : Nat} (h : dtoui64 s = some i) : i < 2 ^ 64 := by
  unfold dtoui64 at h
  split at h
  · simp at h
  · split at h
    · simp at h
    · split at h
      · rename_i hlt
        simp only [Option.some.injEq] at h
        omega
      · simp at h

/-! ## The handler, case by case -/

theorem update_invite (st : State) (m : Msg) (hc : m.Cmd = "INVITE") :
    update st m =
      match decodeInvite m.Body with
      | none => (st, [])
      | some i =>
        if i ≤ st.rnd then (st, [])
        else ({ st with rnd := i },
          [{ Seqn := m.Seqn, From := 0, To := m.From, Cmd := "RSVP",
             Body := rsvpBody i st.vrnd st.vval }]) := by
  unfold update swallowContinue updateBody decodeInvite
  rw [if_pos hc]
  cases splitExactly m.Body iNumParts with
  | none => rfl
  | some parts =>
    simp only
    cases parts[iRnd]? with
    | none => rfl
    | some part =>
      simp only
      cases dtoui64 part with
      | none => rfl
      | some i =>
        simp only
        by_cases h : i ≤ st.rnd
        · simp [h]
        · have h' : i > st.rnd := by omega
          simp [h, h']

theorem update_nominate (st : State) (m : Msg) (hc : m.Cmd = "NOMINATE") :
    update st m =
      match decodeNominate m.Body with
      | none => (st, [])
      | some (i, v) =>
        if i < st.rnd ∨ i = st.vrnd then (st, [])
        else ({ rnd := i, vrnd := i, vval := v },
          [{ Seqn := m.Seqn, From := 0, To := 0, Cmd := "VOTE",
             Body := voteBody i v }]) := by
  have hne : m.Cmd ≠ "INVITE" := by rw [hc]; decide
  unfold update swallowContinue updateBody decodeNominate
  rw [if_neg hne, if_pos hc]
  cases hs : splitExactly m.Body nNumParts with
  | none => rfl
  | some parts =>
    have hl := splitExactly_length hs
    match parts, hl with
    | [p, v], _ =>
      simp only [nRnd, nVal, List.getElem?_cons_zero, List.getElem?_cons_succ]
      cases dtoui64 p with
      | none => rfl
      | some i =>
        simp only
        by_cases h : i < st.rnd ∨ i = st.vrnd
        · simp [h]
        · simp [h]

theorem update_other (st : State) (m : Msg) (h1 : m.Cmd ≠ "INVITE")
    (h2 : m.Cmd ≠ "NOMINATE") : update st m = (st, []) := by
  unfold update swallowContinue updateBody
  rw [if_neg h1, if_neg h2]

/-! ## Encoding then decoding -/

theorem splitN_two (a rest : List Char) (h : ∀ c ∈ a, c ≠ ':') :
    splitN 2 (a ++ ':' :: rest) = [a, rest] := by
  simp [splitN, cutColon_append a rest h]

theorem splitN_three (a b rest : List Char) (ha : ∀ c ∈ a, c ≠ ':')
    (hb : ∀ c ∈ b, c ≠ ':') :
    splitN 3 (a ++ ':' :: (b ++ ':' :: rest)) = [a, b, rest] := by
  simp [splitN, cutColon_append a _ ha, cutColon_append b rest hb]

theorem toDigits_no_colon (i : Nat) : ∀ c ∈ Nat.toDigits 10 i, c ≠ ':' :=
  toDigitsCore_no_colon _ _ _ (by simp)

theorem voteBody_data (i : Nat) (v : String) :
    (voteBody i v).data = Nat.toDigits 10 i ++ ':' :: v.data := by
  simp [voteBody, String.data_append, repr_data]

theorem rsvpBody_data (i vr : Nat) (v : String) :
    (rsvpBody i vr v).data =
      Nat.toDigits 10 i ++ ':' :: (Nat.toDigits 10 vr ++ ':' :: v.data) := by
  simp [rsvpBody, String.data_append, repr_data]

theorem decodeNominate_voteBody (i : Nat) (v : String) (hi : i < 2 ^ 64) :
    decodeNominate (voteBody i v) = some (i, v) := by
  have hr := dtoui64_repr i hi
  unfold decodeNominate splitExactly
  simp only [voteBody_data, nNumParts, splitN_two _ _ (toDigits_no_colon i)]
  simp only [List.length_cons, List.length_nil, List.map, nRnd, nVal,
    List.getElem?_cons_zero, List.getElem?_cons_succ]
  simp only [Nat.repr, List.asString] at hr
  simp [hr]

theorem decodeRsvp_rsvpBody (i vr : Nat) (v : String) (hi : i < 2 ^ 64)
    (hv : vr < 2 ^ 64) : decodeRsvp (rsvpBody i vr v) = some (i, vr, v) := by
  have hr := dtoui64_repr i hi
  have hr' := dtoui64_repr vr hv
  unfold decodeRsvp splitExactly
  simp only [rsvpBody_data,
    splitN_three _ _ _ (toDigits_no_colon i) (toDigits_no_colon vr)]
  simp only [List.length_cons, List.length_nil, List.map,
    List.getElem?_cons_zero, List.getElem?_cons_succ]
  simp only [Nat.repr, List.asString] at hr hr'
  simp [hr, hr']

/-! ## Runs -/

theorem run_append (st : State) (a b : List Msg) :
    run st (a ++ b) = ((run (run st a).1 b).1, (run st a).2 ++ (run (run st a).1 b).2) := by
  induction a generalizing st with
  | nil => simp [run]
  | cons m ms ih => simp [run, ih, List.append_assoc]

theorem run_invariant (P : State → Prop) (hstep : ∀ st m, P st → P (update st m).1)
    (st : State) (h : P st) (ins : List Msg) : P (run st ins).1 := by
  induction ins generalizing st with
  | nil => simpa [run] using h
  | cons m ms ih => simpa [run] using ih _ (hstep st m h)

theorem decodeInvite_lt {body : String} {i : Nat} (h : decodeInvite body = some i) :
    i < 2 ^ 64 := by
  unfold decodeInvite at h
  split at h
  · simp at h
  · split at h
    · simp at h
    · exact dtoui64_lt h

theorem decodeNominate_lt {body : String} {i : Nat} {v : String}
    (h : decodeNominate body = some (i, v)) : i < 2 ^ 64 := by
  unfold decodeNominate at h
  split at h
  · simp at h
  · split at h
    · rename_i part v' _ _
      cases hd : dtoui64 part with
      | none => simp [hd] at h
      | some j =>
        simp only [hd, Option.some.injEq, Prod.mk.injEq] at h
        rw [← h.1]
        exact dtoui64_lt hd
    · simp at h

/-- The three possible effects of one `update`: nothing, an accepted `INVITE`,
or an accepted `NOMINATE`. -/
theorem update_cases (st : State) (m : Msg) :
    update st m = (st, []) ∨
    (∃ i, m.Cmd = "INVITE" ∧ decodeInvite m.Body = some i ∧ st.rnd < i ∧
      update st m = ({ st with rnd := i },
        [{ Seqn := m.Seqn, From := 0, To := m.From, Cmd := "RSVP",
           Body := rsvpBody i st.vrnd st.vval }])) ∨
    (∃ i v, m.Cmd = "NOMINATE" ∧ decodeNominate m.Body = some (i, v) ∧
      st.rnd ≤ i ∧ i ≠ st.vrnd ∧
      update st m = ({ rnd := i, vrnd := i, vval := v },
        [{ Seqn := m.Seqn, From := 0, To := 0, Cmd := "VOTE",
           Body := voteBody i v }])) := by
  by_cases h1 : m.Cmd = "INVITE"
  · have hu := update_invite st m h1
    cases hd : decodeInvite m.Body with
    | none => left; simpa [hd] using hu
    | some i =>
      by_cases hle : i ≤ st.rnd
      · left; simpa [hd, hle] using hu
      · right; left
        exact ⟨i, h1, rfl, by omega, by simpa [hd, hle] using hu⟩
  · by_cases h2 : m.Cmd = "NOMINATE"
    · have hu := update_nominate st m h2
      cases hd : decodeNominate m.Body with
      | none => left; simpa [hd] using hu
      | some p =>
        obtain ⟨i, v⟩ := p
        by_cases hig : i < st.rnd ∨ i = st.vrnd
        · left; simpa [hd, hig] using hu
        · right; right
          refine ⟨i, v, h2, rfl, by omega, by tauto, ?_⟩
          simpa [hd, hig] using hu
    · left; exact update_other st m h1 h2

theorem update_keeps_voted_le (st : State) (m : Msg) (h : st.vrnd ≤ st.rnd) :
    (update st m).1.vrnd ≤ (update st m).1.rnd := by
  rcases update_cases st m with hu | ⟨i, _, _, hlt, hu⟩ | ⟨i, v, _, _, _, _, hu⟩
  · rw [hu]; exact h
  · rw [hu]; simp only; omega
  · rw [hu]

theorem run_keeps_voted_le (st : State) (h : st.vrnd ≤ st.rnd) (ins : List Msg) :
    (run st ins).1.vrnd ≤ (run st ins).1.rnd :=
  run_invariant (fun s => s.vrnd ≤ s.rnd) update_keeps_voted_le st h ins

theorem acceptor_voted_le (ins : List Msg) :
    (acceptor ins).1.vrnd ≤ (acceptor ins).1.rnd :=
  run_keeps_voted_le fresh (Nat.le_refl 0) ins

/-! ## Votes along a run -/

theorem voteRound_rsvp (s f t : Nat) (b : String) :
    voteRound ⟨s, f, t, "RSVP", b⟩ = none := by
  have h : ("RSVP" : String) ≠ "VOTE" := by decide
  simp [voteRound, voteOf, h]

theorem voteOf_vote (s f t i : Nat) (v : String) (hi : i < 2 ^ 64) :
    voteOf ⟨s, f, t, "VOTE", voteBody i v⟩ = some (i, v) := by
  simp [voteOf, decodeNominate_voteBody i v hi]

theorem voteRound_vote (s f t i : Nat) (v : String) (hi : i < 2 ^ 64) :
    voteRound ⟨s, f, t, "VOTE", voteBody i v⟩ = some i := by
  simp [voteRound, voteOf_vote s f t i v hi]

theorem votesFor_append (r : Nat) (a b : List Msg) :
    votesFor r (a ++ b) = votesFor r a + votesFor r b := by
  simp [votesFor, List.countP_append]

/-- Along a run from a state with `vrnd ≤ rnd`, round `r` is voted at most
once, and not at all when `r` is below the promise or is the voted round. -/
theorem votesFor_run (r : Nat) (ins : List Msg) :
    ∀ st : State, st.vrnd ≤ st.rnd →
      votesFor r (run st ins).2 ≤ 1 ∧
      ((r < st.rnd ∨ r = st.vrnd) → votesFor r (run st ins).2 = 0) := by
  induction ins with
  | nil => intro st _; simp [run, votesFor]
  | cons m ms ih =>
    intro st hst
    simp only [run, votesFor_append]
    rcases update_cases st m with hu | ⟨i, _, _, hlt, hu⟩ | ⟨i, v, _, hd, hge, hne, hu⟩
    · rw [hu]
      have := ih st hst
      simpa [votesFor] using this
    · rw [hu]
      have h0 : votesFor r
          [(⟨m.Seqn, 0, m.From, "RSVP", rsvpBody i st.vrnd st.vval⟩ : Msg)] = 0 := by
        simp [votesFor, voteRound_rsvp]
      have := ih { st with rnd := i } (by simp only; omega)
      simp only at this
      rw [h0]
      dsimp only
      refine ⟨by omega, fun hb => ?_⟩
      have := this.2 (by omega)
      omega
    · rw [hu]
      have hi := decodeNominate_lt hd
      have := ih { rnd := i, vrnd := i, vval := v } (Nat.le_refl _)
      simp only at this
      by_cases hri : r = i
      · subst hri
        have h1 : votesFor r [(⟨m.Seqn, 0, 0, "VOTE", voteBody r v⟩ : Msg)] = 1 := by
          simp [votesFor, voteRound_vote _ _ _ r v hi]
        have h2 := this.2 (Or.inr rfl)
        dsimp only
        rw [h1, h2]
        exact ⟨by omega, fun hb => by omega⟩
      · have h0 : votesFor r [(⟨m.Seqn, 0, 0, "VOTE", voteBody i v⟩ : Msg)] = 0 := by
          have : i ≠ r := fun h => hri h.symm
          simp [votesFor, voteRound_vote _ _ _ i v hi, this]
        rw [h0]
        dsimp only
        refine ⟨by omega, fun hb => ?_⟩
        have := this.2 (by omega)
        omega

/-- Every message emitted along a run is an `RSVP`, or a `VOTE` whose body
decodes to a round. -/
theorem run_outputs (ins : List Msg) :
    ∀ (st : State), ∀ o ∈ (run st ins).2,
      o.Cmd = "RSVP" ∨ (o.Cmd = "VOTE" ∧ (voteRound o).isSome) := by
  induction ins with
  | nil => intro st o ho; simp [run] at ho
  | cons m ms ih =>
    intro st o ho
    simp only [run, List.mem_append] at ho
    rcases ho with ho | ho
    · rcases update_cases st m with hu | ⟨i, _, _, _, hu⟩ | ⟨i, v, _, hd, _, _, hu⟩
      · rw [hu] at ho; simp at ho
      · rw [hu] at ho
        rw [List.mem_singleton.1 ho]
        exact Or.inl rfl
      · rw [hu] at ho
        rw [List.mem_singleton.1 ho]
        exact Or.inr ⟨rfl, by simp [voteRound_vote _ _ _ i v (decodeNominate_lt hd)]⟩
    · exact ih _ o ho

/-! ## Runs of invitations -/

theorem maxRound_cons (i : Nat) (rs : List Nat) :
    maxRound (i :: rs) = max i (maxRound rs) := rfl

theorem maxRound_append (a b : List Nat) :
    maxRound (a ++ b) = max (maxRound a) (maxRound b) := by
  induction a with
  | nil => simp [maxRound]
  | cons x xs ih => simp only [List.cons_append, maxRound_cons, ih, max_assoc]

/-- After a run of well-formed `INVITE`s the promised round is the largest of
the starting promise and the rounds invited. -/
theorem run_invites_rnd (ins : List Msg) :
    ∀ st : State, (∀ m ∈ ins, m.Cmd = "INVITE" ∧ (decodeInvite m.Body).isSome) →
      (run st ins).1.rnd = max st.rnd (maxRound (inviteRounds ins)) := by
  induction ins with
  | nil => intro st _; simp [run, inviteRounds, maxRound]
  | cons m ms ih =>
    intro st hwf
    obtain ⟨hc, hs⟩ := hwf m (List.mem_cons_self _ _)
    obtain ⟨i, hd⟩ := Option.isSome_iff_exists.1 hs
    have hrest := ih (update st m).1 (fun x hx => hwf x (List.mem_cons_of_mem _ hx))
    have hr : inviteRounds (m :: ms) = i :: inviteRounds ms := by
      simp [inviteRounds, List.filterMap_cons, hd]
    have hu := update_invite st m hc
    simp only [hd] at hu
    simp only [run, hr, maxRound_cons, hrest]
    by_cases hle : i ≤ st.rnd
    · simp only [hle, if_true] at hu
      rw [hu]
      dsimp only
      omega
    · simp only [hle, if_false] at hu
      rw [hu]
      dsimp only
      omega

/-! ## Runs that emit no vote -/

theorem update_no_vote (st : State) (m : Msg)
    (h : ∀ o ∈ (update st m).2, o.Cmd ≠ "VOTE") :
    (update st m).1.vrnd = st.vrnd ∧ (update st m).1.vval = st.vval := by
  rcases update_cases st m with hu | ⟨i, _, _, _, hu⟩ | ⟨i, v, _, _, _, _, hu⟩
  · rw [hu]; exact ⟨rfl, rfl⟩
  · rw [hu]; exact ⟨rfl, rfl⟩
  · rw [hu] at h
    exact absurd rfl (h _ (List.mem_singleton.2 rfl))

theorem run_no_vote (ins : List Msg) :
    ∀ st : State, (∀ o ∈ (run st ins).2, o.Cmd ≠ "VOTE") →
      (run st ins).1.vrnd = st.vrnd ∧ (run st ins).1.vval = st.vval := by
  induction ins with
  | nil => intro st _; exact ⟨rfl, rfl⟩
  | cons m ms ih =>
    intro st h
    simp only [run] at h ⊢
    have h1 := update_no_vote st m (fun o ho => h o (List.mem_append_left _ ho))
    have h2 := ih (update st m).1 (fun o ho => h o (List.mem_append_right _ ho))
    exact ⟨h2.1.trans h1.1, h2.2.trans h1.2⟩

theorem run_keeps_bounds (st : State) (h : st.rnd < 2 ^ 64 ∧ st.vrnd < 2 ^ 64)
    (ins : List Msg) : (run st ins).1.rnd < 2 ^ 64 ∧ (run st ins).1.vrnd < 2 ^ 64 := by
  refine run_invariant (fun s => s.rnd < 2 ^ 64 ∧ s.vrnd < 2 ^ 64) ?_ st h ins
  intro s m hs
  rcases update_cases s m with hu | ⟨i, _, hd, _, hu⟩ | ⟨i, v, _, hd, _, _, hu⟩
  · rw [hu]; exact hs
  · rw [hu]; exact ⟨decodeInvite_lt hd, hs.2⟩
  · rw [hu]; exact ⟨decodeNominate_lt hd, decodeNominate_lt hd⟩

/-! ## Dropping malformed messages -/

theorem update_malformed (st : State) (m : Msg) (h : malformed m = true) :
    update st m = (st, []) := by
  unfold malformed at h
  simp only [Bool.or_eq_true, Bool.and_eq_true, decide_eq_true_eq,
    Option.isNone_iff_eq_none] at h
  rcases h with ⟨hc, hd⟩ | ⟨hc, hd⟩
  · have hu := update_invite st m hc
    simpa [hd] using hu
  · have hu := update_nominate st m hc
    simpa [hd] using hu

theorem run_filter_malformed (ins : List Msg) :
    ∀ st : State, run st (ins.filter (fun m => !malformed m)) = run st ins := by
  induction ins with
  | nil => intro st; rfl
  | cons m ms ih =>
    intro st
    cases hm : malformed m with
    | true =>
      have hu := update_malformed st m hm
      simp [List.filter_cons, hm, run, hu, ih]
    | false =>
      simp [List.filter_cons, hm, run, ih]

/-! ## The promise in closed form -/

theorem maxRound_filterMap_cons (m : Msg) (ms : List Msg) :
    maxRound ((m :: ms).filterMap inRound) =
      max ((inRound m).getD 0) (maxRound (ms.filterMap inRound)) := by
  cases h : inRound m with
  | none => simp [List.filterMap_cons, h]
  | some i => simp [List.filterMap_cons, h, maxRound_cons]

/-- One step moves the promise to the larger of itself and the round of the
message, when the message is a well-formed `INVITE` or `NOMINATE`. -/
theorem update_rnd (st : State) (m : Msg) (h : st.vrnd ≤ st.rnd) :
    (update st m).1.rnd = max st.rnd ((inRound m).getD 0) := by
  by_cases h1 : m.Cmd = "INVITE"
  · have hu := update_invite st m h1
    have hin : inRound m = decodeInvite m.Body := by
      unfold inRound
      rw [if_pos h1]
    rw [hin]
    cases hd : decodeInvite m.Body with
    | none => simp [hd] at hu ⊢; rw [hu]
    | some i =>
      simp only [hd] at hu
      by_cases hle : i ≤ st.rnd
      · simp only [hle, if_true] at hu
        rw [hu]; simp only [Option.getD_some]; omega
      · simp only [hle, if_false] at hu
        rw [hu]; simp only [Option.getD_some]; omega
  · by_cases h2 : m.Cmd = "NOMINATE"
    · have hu := update_nominate st m h2
      have hin : inRound m = (decodeNominate m.Body).map (fun p => p.1) := by
        unfold inRound
        rw [if_neg h1, if_pos h2]
      rw [hin]
      cases hd : decodeNominate m.Body with
      | none => simp [hd] at hu ⊢; rw [hu]
      | some p =>
        obtain ⟨i, v⟩ := p
        simp only [hd] at hu
        by_cases hig : i < st.rnd ∨ i = st.vrnd
        · simp only [hig, if_true] at hu
          rw [hu]; simp only [Option.map_some', Option.getD_some]; omega
        · simp only [hig, if_false] at hu
          rw [hu]; simp only [Option.map_some', Option.getD_some]; omega
    · rw [update_other st m h1 h2]
      simp [inRound, h1, h2]

theorem run_rnd (ins : List Msg) :
    ∀ st : State, st.vrnd ≤ st.rnd →
      (run st ins).1.rnd = max st.rnd (maxRound (ins.filterMap inRound)) := by
  induction ins with
  | nil => intro st _; simp [run, maxRound]
  | cons m ms ih =>
    intro st h
    have h1 := update_rnd st m h
    have h2 := ih (update st m).1 (update_keeps_voted_le st m h)
    rw [maxRound_filterMap_cons]
    simp only [run]
    rw [h2, h1, max_assoc]

/-! ## Round zero -/

theorem update_keeps_zero (st : State) (m : Msg)
    (h : st.vrnd ≤ st.rnd ∧ (st.vrnd = 0 → st.vval = "")) :
    (update st m).1.vrnd ≤ (update st m).1.rnd ∧
      ((update st m).1.vrnd = 0 → (update st m).1.vval = "") := by
  refine ⟨update_keeps_voted_le st m h.1, ?_⟩
  rcases update_cases st m with hu | ⟨i, _, _, _, hu⟩ | ⟨i, v, _, _, hge, hne, hu⟩
  · rw [hu]; exact h.2
  · rw [hu]; exact h.2
  · rw [hu]
    dsimp only
    intro h0
    omega

/-! ## What an `RSVP` reports -/

theorem voteOf_rsvp (s f t : Nat) (b : String) :
    voteOf ⟨s, f, t, "RSVP", b⟩ = none := by
  have h : ("RSVP" : String) ≠ "VOTE" := by decide
  simp [voteOf, h]

theorem rsvpOf_rsvp (s f t i vr : Nat) (v : String) (hi : i < 2 ^ 64) (hv : vr < 2 ^ 64) :
    rsvpOf ⟨s, f, t, "RSVP", rsvpBody i vr v⟩ = some (i, vr, v) := by
  simp [rsvpOf, decodeRsvp_rsvpBody i vr v hi hv]

/-- Along a run, every emitted `RSVP` reports the most recent vote emitted
before it, or the vote held at the start when none was emitted before it. -/
theorem run_rsvp_lastVote (ins : List Msg) :
    ∀ st : State, st.vrnd < 2 ^ 64 →
      ∀ (pre : List Msg) (o : Msg) (post : List Msg),
        (run st ins).2 = pre ++ o :: post → o.Cmd = "RSVP" →
        ∃ i, rsvpOf o = some (i, lastVote (st.vrnd, st.vval) pre) := by
  induction ins with
  | nil =>
    intro st _ pre o post h _
    simp [run] at h
  | cons m ms ih =>
    intro st hb pre o post h hc
    simp only [run] at h
    rcases update_cases st m with hu | ⟨i, _, hd, _, hu⟩ | ⟨i, v, _, hd, _, _, hu⟩
    · rw [hu] at h
      exact ih st hb pre o post (by simpa using h) hc
    · rw [hu] at h
      dsimp only at h
      cases pre with
      | nil =>
        simp only [List.singleton_append, List.nil_append, List.cons.injEq] at h
        rw [← h.1]
        exact ⟨i, by simp [rsvpOf_rsvp _ _ _ i st.vrnd st.vval (decodeInvite_lt hd) hb,
          lastVote]⟩
      | cons x pre' =>
        simp only [List.singleton_append, List.cons_append, List.cons.injEq] at h
        obtain ⟨j, hj⟩ := ih { st with rnd := i } hb pre' o post h.2 hc
        refine ⟨j, ?_⟩
        rw [hj, ← h.1]
        simp [lastVote, voteOf_rsvp]
    · rw [hu] at h
      dsimp only at h
      have hi := decodeNominate_lt hd
      cases pre with
      | nil =>
        simp only [List.singleton_append, List.nil_append, List.cons.injEq] at h
        rw [← h.1] at hc
        have hne : ("VOTE" : String) ≠ "RSVP" := by decide
        exact absurd hc hne
      | cons x pre' =>
        simp only [List.singleton_append, List.cons_append, List.cons.injEq] at h
        obtain ⟨j, hj⟩ := ih { rnd := i, vrnd := i, vval := v } hi pre' o post h.2 hc
        refine ⟨j, ?_⟩
        rw [hj, ← h.1]
        simp [lastVote, voteOf_vote _ _ _ i v hi]

/-! ## Rounds of the emitted messages -/

theorem outRound_rsvp (s f t i vr : Nat) (v : String) (hi : i < 2 ^ 64) (hv : vr < 2 ^ 64) :
    outRound ⟨s, f, t, "RSVP", rsvpBody i vr v⟩ = some i := by
  simp [outRound, decodeRsvp_rsvpBody i vr v hi hv]

theorem outRound_vote (s f t i : Nat) (v : String) (hi : i < 2 ^ 64) :
    outRound ⟨s, f, t, "VOTE", voteBody i v⟩ = some i := by
  have h : ("VOTE" : String) ≠ "RSVP" := by decide
  simp [outRound, h, decodeNominate_voteBody i v hi]

/-- Along a run, every emitted message carries a round, these rounds are at
least the promise at the start, and they never decrease. -/
theorem run_outRounds (ins : List Msg) :
    ∀ st : State, st.vrnd < 2 ^ 64 →
      (∀ o ∈ (run st ins).2, (outRound o).isSome) ∧
      (∀ r ∈ (run st ins).2.filterMap outRound, st.rnd ≤ r) ∧
      List.Pairwise (fun a b => a ≤ b) ((run st ins).2.filterMap outRound) := by
  induction ins with
  | nil => intro st _; simp [run]
  | cons m ms ih =>
    intro st hb
    simp only [run]
    rcases update_cases st m with hu | ⟨i, _, hd, hlt, hu⟩ | ⟨i, v, _, hd, hge, _, hu⟩
    · rw [hu]
      simpa using ih st hb
    · rw [hu]
      dsimp only
      have hi := decodeInvite_lt hd
      obtain ⟨h1, h2, h3⟩ := ih { st with rnd := i } hb
      dsimp only at h2
      have hr := outRound_rsvp m.Seqn 0 m.From i st.vrnd st.vval hi hb
      refine ⟨?_, ?_, ?_⟩
      · intro o ho
        rcases List.mem_append.1 ho with ho | ho
        · rw [List.mem_singleton.1 ho, hr]; rfl
        · exact h1 o ho
      · intro r hr'
        simp only [List.singleton_append, List.filterMap_cons, hr, List.mem_cons] at hr'
        rcases hr' with rfl | hr'
        · omega
        · have := h2 r hr'
          omega
      · simp only [List.singleton_append, List.filterMap_cons, hr, List.pairwise_cons]
        exact ⟨h2, h3⟩
    · rw [hu]
      dsimp only
      have hi := decodeNominate_lt hd
      obtain ⟨h1, h2, h3⟩ := ih { rnd := i, vrnd := i, vval := v } hi
      dsimp only at h2
      have hr := outRound_vote m.Seqn 0 0 i v hi
      refine ⟨?_, ?_, ?_⟩
      · intro o ho
        rcases List.mem_append.1 ho with ho | ho
        · rw [List.mem_singleton.1 ho, hr]; rfl
        · exact h1 o ho
      · intro r hr'
        simp only [List.singleton_append, List.filterMap_cons, hr, List.mem_cons] at hr'
        rcases hr' with rfl | hr'
        · omega
        · have := h2 r hr'
          omega
      · simp only [List.singleton_append, List.filterMap_cons, hr, List.pairwise_cons]
        exact ⟨h2, h3⟩

/-! ## The voted round was voted -/

/-- Along a run, a voted round other than `0` is the round of a `VOTE` among the
messages emitted so far. -/
theorem run_voted_was_voted (ins : List Msg) :
    ∀ (st : State) (outs0 : List Msg),
      (st.vrnd = 0 ∨ 0 < votesFor st.vrnd outs0) →
      ((run st ins).1.vrnd = 0 ∨
        0 < votesFor (run st ins).1.vrnd (outs0 ++ (run st ins).2)) := by
  induction ins with
  | nil => intro st outs0 h; simpa [run] using h
  | cons m ms ih =>
    intro st outs0 h
    simp only [run, ← List.append_assoc]
    apply ih
    rcases update_cases st m with hu | ⟨i, _, _, _, hu⟩ | ⟨i, v, _, hd, _, _, hu⟩
    · rw [hu]; simpa using h
    · rw [hu]
      dsimp only
      rw [votesFor_append]
      rcases h with h | h
      · exact Or.inl h
      · exact Or.inr (by omega)
    · rw [hu]
      dsimp only
      rw [votesFor_append]
      have h1 : votesFor i [(⟨m.Seqn, 0, 0, "VOTE", voteBody i v⟩ : Msg)] = 1 := by
        simp [votesFor, voteRound_vote _ _ _ i v (decodeNominate_lt hd)]
      exact Or.inr (by omega)

theorem acceptor_voted_was_voted (ins : List Msg) :
    (acceptor ins).1.vrnd = 0 ∨ 0 < votesFor (acceptor ins).1.vrnd (acceptor ins).2 := by
  have h := run_voted_was_voted ins fresh [] (Or.inl rfl)
  simpa [acceptor] using h

/-! ## The claims -/

/-- C1: in every state reached from the fresh acceptor by handling a finite
sequence of messages of any kind, the voted round is at most the promised
round. -/
theorem C1_voted_le_promised (ins : List Msg) :
    (acceptor ins).1.vrnd ≤ (acceptor ins).1.rnd :=
  run_keeps_voted_le fresh (Nat.le_refl 0) ins

/-- C4: an `INVITE` with sequence number `m.Seqn`, sender `m.From` and a
well-formed round `i` above the promised round sets the promised round to `i`,
keeps the voted round and value, and emits exactly one `RSVP` carrying the same
sequence number, addressed to the sender, with body `i:vrnd:vval` built from
the voted round and value held before; on the fresh acceptor these are `0` and
the empty string. -/
theorem C4_invite_accepted (st : State) (m : Msg) (i : Nat)
    (hc : m.Cmd = "INVITE") (hd : decodeInvite m.Body = some i) (hi : i > st.rnd) :
    update st m =
      ({ rnd := i, vrnd := st.vrnd, vval := st.vval },
       [{ Seqn := m.Seqn, From := 0, To := m.From, Cmd := "RSVP",
          Body := Nat.repr i ++ ":" ++ Nat.repr st.vrnd ++ ":" ++ st.vval }]) ∧
    (st = fresh → (update st m).2 =
       [{ Seqn := m.Seqn, From := 0, To := m.From, Cmd := "RSVP",
          Body := Nat.repr i ++ ":" ++ "0" ++ ":" ++ "" }]) := by
  have hu := update_invite st m hc
  have hle : ¬ i ≤ st.rnd := by omega
  simp only [hd, hle, if_false] at hu
  refine ⟨by rw [hu]; rfl, ?_⟩
  rintro rfl
  rw [hu]
  rfl

theorem C4_invite_accepted_witness :
    update ⟨3, 2, "w"⟩ (invite 5 7 "11") =
      (⟨11, 2, "w"⟩, [⟨5, 0, 7, "RSVP", "11:2:w"⟩]) :=
  (C4_invite_accepted ⟨3, 2, "w"⟩ (invite 5 7 "11") 11 (by decide) (by decide)
    (by decide)).1

/-- C5: a `NOMINATE` with sequence number `m.Seqn` and a well-formed body of
round `i` and value `v`, with `i` at least the promised round and different
from the voted round, sets the state to `(i, i, v)` and emits exactly one
`VOTE` carrying the same sequence number, addressed to `0` (broadcast), with
body `i:v`. -/
theorem C5_nominate_accepted (st : State) (m : Msg) (i : Nat) (v : String)
    (hc : m.Cmd = "NOMINATE") (hd : decodeNominate m.Body = some (i, v))
    (hge : i ≥ st.rnd) (hne : i ≠ st.vrnd) :
    update st m =
      ({ rnd := i, vrnd := i, vval := v },
       [{ Seqn := m.Seqn, From := 0, To := 0, Cmd := "VOTE",
          Body := Nat.repr i ++ ":" ++ v }]) := by
  have hu := update_nominate st m hc
  have hg : ¬ (i < st.rnd ∨ i = st.vrnd) := by omega
  simp only [hd, hg, if_false] at hu
  rw [hu]
  rfl

theorem C5_nominate_accepted_witness :
    update ⟨3, 2, "w"⟩ (nominate 5 7 "3:a:b") =
      (⟨3, 3, "a:b"⟩, [⟨5, 0, 0, "VOTE", "3:a:b"⟩]) :=
  C5_nominate_accepted ⟨3, 2, "w"⟩ (nominate 5 7 "3:a:b") 3 "a:b" (by decide)
    (by decide) (by decide) (by decide)

/-- C6: an `INVITE` with a well-formed round `i` at most the promised round
emits nothing and leaves the promised round, voted round and voted value as
they were. -/
theorem C6_invite_ignored (st : State) (m : Msg) (i : Nat)
    (hc : m.Cmd = "INVITE") (hd : decodeInvite m.Body = some i) (hi : i ≤ st.rnd) :
    update st m = (st, []) := by
  have hu := update_invite st m hc
  simpa [hd, hi] using hu

theorem C6_invite_ignored_witness :
    update ⟨11, 2, "w"⟩ (invite 5 7 "11") = (⟨11, 2, "w"⟩, []) :=
  C6_invite_ignored ⟨11, 2, "w"⟩ (invite 5 7 "11") 11 (by decide) (by decide)
    (by decide)

/-- C7: a `NOMINATE` with a well-formed round `i` and value `v`, where `i` is
below the promised round or equal to the voted round, emits nothing and leaves
all three state fields as they were; the voted value is not replaced by `v`. -/
theorem C7_nominate_ignored (st : State) (m : Msg) (i : Nat) (v : String)
    (hc : m.Cmd = "NOMINATE") (hd : decodeNominate m.Body = some (i, v))
    (hi : i < st.rnd ∨ i = st.vrnd) :
    update st m = (st, []) ∧ (update st m).1.vval = st.vval := by
  have hu := update_nominate st m hc
  simp only [hd, hi, if_true] at hu
  rw [hu]
  exact ⟨rfl, rfl⟩

theorem C7_nominate_ignored_witness :
    update ⟨4, 4, "w"⟩ (nominate 5 7 "4:other") = (⟨4, 4, "w"⟩, []) :=
  (C7_nominate_ignored ⟨4, 4, "w"⟩ (nominate 5 7 "4:other") 4 "other" (by decide)
    (by decide) (by decide)).1

/-- C10: a message whose command is neither `INVITE` nor `NOMINATE` emits
nothing and leaves the state unchanged, whatever its body; this covers the
commands `RSVP` and `VOTE` and the empty command. -/
theorem C10_other_command_ignored (st : State) (m : Msg)
    (h1 : m.Cmd ≠ "INVITE") (h2 : m.Cmd ≠ "NOMINATE") :
    update st m = (st, []) ∧
    (∀ (s f t : Nat) (body : String),
      update st ⟨s, f, t, "RSVP", body⟩ = (st, []) ∧
      update st ⟨s, f, t, "VOTE", body⟩ = (st, []) ∧
      update st ⟨s, f, t, "", body⟩ = (st, [])) := by
  refine ⟨update_other st m h1 h2, ?_⟩
  intro s f t body
  have a1 : ("RSVP" : String) ≠ "INVITE" := by decide
  have a2 : ("RSVP" : String) ≠ "NOMINATE" := by decide
  have b1 : ("VOTE" : String) ≠ "INVITE" := by decide
  have b2 : ("VOTE" : String) ≠ "NOMINATE" := by decide
  have c1 : ("" : String) ≠ "INVITE" := by decide
  have c2 : ("" : String) ≠ "NOMINATE" := by decide
  exact ⟨update_other _ _ a1 a2, update_other _ _ b1 b2, update_other _ _ c1 c2⟩

theorem C10_other_command_ignored_witness :
    update ⟨4, 3, "w"⟩ ⟨1, 7, 0, "x", "1"⟩ = (⟨4, 3, "w"⟩, []) :=
  (C10_other_command_ignored ⟨4, 3, "w"⟩ ⟨1, 7, 0, "x", "1"⟩ (by decide)
    (by decide)).1

/-- C2: whatever finite sequence of messages a fresh acceptor handles, and for
every round `r`, at most one of the emitted messages is a `VOTE` whose round is
`r`, however many `NOMINATE` messages for `r` came in and whatever values they
carried; and every emitted `VOTE` has a round, so none escapes the count. -/
theorem C2_one_vote_per_round (ins : List Msg) (r : Nat) :
    votesFor r (acceptor ins).2 ≤ 1 ∧
    (∀ o ∈ (acceptor ins).2, o.Cmd = "VOTE" → (voteRound o).isSome) := by
  refine ⟨(votesFor_run r ins fresh (Nat.le_refl 0)).1, fun o ho hc => ?_⟩
  rcases run_outputs ins fresh o ho with h | h
  · rw [hc] at h
    exact absurd h (by decide)
  · exact h.2

/-- C3: when a fresh acceptor handles a finite sequence of well-formed `INVITE`
messages, the promised round never decreases from one step to the next; before
the `k`-th message it is the largest round among the earlier ones (`0` if there
are none); and the `k`-th message, of round `i`, makes the acceptor emit an
`RSVP` exactly when `i` is strictly greater than that round. -/
theorem C3_promise_monotone (ins : List Msg)
    (hwf : ∀ m ∈ ins, m.Cmd = "INVITE" ∧ (decodeInvite m.Body).isSome)
    (k : Nat) (m : Msg) (i : Nat) (hk : ins[k]? = some m)
    (hi : decodeInvite m.Body = some i) :
    (acceptor (ins.take k)).1.rnd ≤ (acceptor (ins.take (k + 1))).1.rnd ∧
    (acceptor (ins.take k)).1.rnd = maxRound (inviteRounds (ins.take k)) ∧
    (acceptor (ins.take (k + 1))).2 =
      (acceptor (ins.take k)).2 ++ (update (acceptor (ins.take k)).1 m).2 ∧
    ((∃ o, (update (acceptor (ins.take k)).1 m).2 = [o] ∧ o.Cmd = "RSVP") ↔
      maxRound (inviteRounds (ins.take k)) < i) := by
  have hwfk : ∀ x ∈ ins.take k, x.Cmd = "INVITE" ∧ (decodeInvite x.Body).isSome :=
    fun x hx => hwf x (List.mem_of_mem_take hx)
  have hmem : m ∈ ins := List.getElem?_mem hk
  have hc := (hwf m hmem).1
  have htake : ins.take (k + 1) = ins.take k ++ [m] := by
    rw [List.take_succ, hk]; rfl
  have hrnd : (acceptor (ins.take k)).1.rnd = maxRound (inviteRounds (ins.take k)) := by
    have := run_invites_rnd (ins.take k) fresh hwfk
    simpa [acceptor, fresh] using this
  have hrun : acceptor (ins.take (k + 1)) =
      ((update (acceptor (ins.take k)).1 m).1,
        (acceptor (ins.take k)).2 ++ (update (acceptor (ins.take k)).1 m).2) := by
    rw [htake]
    simp [acceptor, run_append, run]
  have hu := update_invite (acceptor (ins.take k)).1 m hc
  simp only [hi] at hu
  refine ⟨?_, hrnd, by rw [hrun], ?_⟩
  · rw [hrun]
    dsimp only
    by_cases hle : i ≤ (acceptor (ins.take k)).1.rnd
    · simp only [hle, if_true] at hu
      rw [hu]
    · simp only [hle, if_false] at hu
      rw [hu]
      dsimp only
      omega
  · rw [← hrnd]
    by_cases hle : i ≤ (acceptor (ins.take k)).1.rnd
    · simp only [hle, if_true] at hu
      rw [hu]
      constructor
      · rintro ⟨o, ho, _⟩
        simp at ho
      · intro hlt
        omega
    · simp only [hle, if_false] at hu
      rw [hu]
      constructor
      · intro _
        omega
      · intro _
        exact ⟨_, rfl, rfl⟩

theorem C3_promise_monotone_witness :
    (acceptor [invite 1 7 "5", invite 1 7 "3"]).1.rnd ≤
      (acceptor [invite 1 7 "5", invite 1 7 "3", invite 1 8 "9"]).1.rnd ∧
    ((∃ o, (update (acceptor [invite 1 7 "5", invite 1 7 "3"]).1 (invite 1 8 "9")).2 = [o] ∧
        o.Cmd = "RSVP") ↔ maxRound [5, 3] < 9) :=
  have h := C3_promise_monotone [invite 1 7 "5", invite 1 7 "3", invite 1 8 "9", invite 1 7 "2"]
    (by decide) 2 (invite 1 8 "9") 9 (by decide) (by decide)
  ⟨h.1, h.2.2.2⟩

/-- C8, as stated, fails: a fresh acceptor that handles `NOMINATE 1:a`,
`NOMINATE 2:b`, `INVITE 3` emits `VOTE(1, a)`, then `VOTE(2, b)`, and the
`INVITE`, whose round `3` is above `1`, produces an `RSVP` that reports voted
round `2` and value `b`, not `1` and `a`. -/
theorem C8_counterexample :
    (update (acceptor []).1 (nominate 1 7 "1:a")).2 = [⟨1, 0, 0, "VOTE", "1:a"⟩] ∧
    voteOf ⟨1, 0, 0, "VOTE", "1:a"⟩ = some (1, "a") ∧
    (invite 1 7 "3").Cmd = "INVITE" ∧
    decodeInvite (invite 1 7 "3").Body = some 3 ∧
    1 < 3 ∧
    (update (run (update (acceptor []).1 (nominate 1 7 "1:a")).1
        [nominate 1 7 "2:b"]).1 (invite 1 7 "3")).2 = [⟨1, 0, 7, "RSVP", "3:2:b"⟩] ∧
    rsvpOf ⟨1, 0, 7, "RSVP", "3:2:b"⟩ = some (3, 2, "b") ∧
    rsvpOf ⟨1, 0, 7, "RSVP", "3:2:b"⟩ ≠ some (3, 1, "a") := by
  decide

/-- C8, amended: for every input sequence `pre ++ n :: mid ++ [inv]` fed to a
fresh acceptor, if handling `n` emits `VOTE(r, v)`, no `VOTE` is emitted while
handling `mid`, and `inv` is an `INVITE` with round `i > r` that produces an
`RSVP`, then that `RSVP` reports round `i`, voted round `r` and voted value
`v`. -/
theorem C8_honest_reporting (pre mid : List Msg) (n inv o rsvp : Msg) (r i : Nat)
    (v : String)
    (ho : o ∈ (update (acceptor pre).1 n).2) (hv : voteOf o = some (r, v))
    (hmid : ∀ x ∈ (run (update (acceptor pre).1 n).1 mid).2, x.Cmd ≠ "VOTE")
    (hc : inv.Cmd = "INVITE") (hd : decodeInvite inv.Body = some i) (_hr : r < i)
    (hrsvp : rsvp ∈ (update (run (update (acceptor pre).1 n).1 mid).1 inv).2)
    (_hcmd : rsvp.Cmd = "RSVP") :
    rsvpOf rsvp = some (i, r, v) := by
  -- the state right after the vote
  have h1 : (update (acceptor pre).1 n).1.vrnd = r ∧ (update (acceptor pre).1 n).1.vval = v ∧
      r < 2 ^ 64 := by
    rcases update_cases (acceptor pre).1 n with hu | ⟨j, _, _, _, hu⟩ | ⟨j, w, _, hdn, _, _, hu⟩
    · rw [hu] at ho; simp at ho
    · rw [hu] at ho
      rw [List.mem_singleton.1 ho] at hv
      have hne : ("RSVP" : String) ≠ "VOTE" := by decide
      simp [voteOf, hne] at hv
    · rw [hu] at ho
      rw [List.mem_singleton.1 ho, voteOf_vote _ _ _ j w (decodeNominate_lt hdn)] at hv
      simp only [Option.some.injEq, Prod.mk.injEq] at hv
      rw [hu]
      exact ⟨hv.1, hv.2, hv.1 ▸ decodeNominate_lt hdn⟩
  -- nothing is voted while handling `mid`
  have h2 := run_no_vote mid (update (acceptor pre).1 n).1 hmid
  have hu := update_invite (run (update (acceptor pre).1 n).1 mid).1 inv hc
  simp only [hd] at hu
  by_cases hle : i ≤ (run (update (acceptor pre).1 n).1 mid).1.rnd
  · simp only [hle, if_true] at hu
    rw [hu] at hrsvp
    simp at hrsvp
  · simp only [hle, if_false] at hu
    rw [hu] at hrsvp
    rw [List.mem_singleton.1 hrsvp, h2.1, h2.2, h1.1, h1.2.1]
    simp [rsvpOf, decodeRsvp_rsvpBody i r v (decodeInvite_lt hd) h1.2.2]

theorem C8_honest_reporting_witness :
    rsvpOf ⟨4, 0, 8, "RSVP", "9:5:a"⟩ = some (9, 5, "a") :=
  C8_honest_reporting [invite 1 7 "2"] [invite 2 7 "6", nominate 2 7 "3:z"]
    (nominate 3 7 "5:a") (invite 4 8 "9") ⟨3, 0, 0, "VOTE", "5:a"⟩
    ⟨4, 0, 8, "RSVP", "9:5:a"⟩ 5 9 "a"
    (by decide) (by decide) (by decide) (by decide) (by decide) (by decide)
    (by decide) (by decide)

/-- C9: a message whose command is `INVITE` or `NOMINATE` and whose body does
not decode (wrong number of parts, or a round that is not an unsigned decimal
integer) emits nothing and leaves the state unchanged, in every state;
consequently deleting the malformed messages of any finite input sequence
changes neither the emitted outputs nor the final state, from the fresh state
or any other. -/
theorem C9_malformed_resilience :
    (∀ (st : State) (m : Msg), malformed m = true → update st m = (st, [])) ∧
    (∀ ins : List Msg, acceptor (ins.filter (fun m => !malformed m)) = acceptor ins) ∧
    (∀ (st : State) (ins : List Msg),
      run st (ins.filter (fun m => !malformed m)) = run st ins) :=
  ⟨update_malformed, fun ins => run_filter_malformed ins fresh,
    fun st ins => run_filter_malformed ins st⟩

theorem C9_malformed_resilience_witness :
    malformed (invite 1 7 "x") = true ∧
    malformed (nominate 1 7 "x") = true ∧
    malformed (nominate 1 7 "x:foo") = true ∧
    update ⟨4, 3, "w"⟩ (invite 1 7 "x") = (⟨4, 3, "w"⟩, []) ∧
    update ⟨4, 3, "w"⟩ (nominate 1 7 "x") = (⟨4, 3, "w"⟩, []) ∧
    update ⟨4, 3, "w"⟩ (nominate 1 7 "x:foo") = (⟨4, 3, "w"⟩, []) :=
  ⟨by decide, by decide, by decide,
    C9_malformed_resilience.1 _ _ (by decide),
    C9_malformed_resilience.1 _ _ (by decide),
    C9_malformed_resilience.1 _ _ (by decide)⟩

/-- C11: on a fresh acceptor, with no earlier `INVITE`, a well-formed
`NOMINATE` of round `i ≥ 1` and value `v` handled as the first message emits
exactly one message, a `VOTE` of round `i` and value `v`, and leaves the state
`(i, i, v)`. -/
theorem C11_fast_path (m : Msg) (i : Nat) (v : String)
    (hc : m.Cmd = "NOMINATE") (hd : decodeNominate m.Body = some (i, v)) (hi : 1 ≤ i) :
    acceptor [m] =
      ({ rnd := i, vrnd := i, vval := v },
       [{ Seqn := m.Seqn, From := 0, To := 0, Cmd := "VOTE", Body := voteBody i v }]) ∧
    voteOf { Seqn := m.Seqn, From := 0, To := 0, Cmd := "VOTE", Body := voteBody i v } =
      some (i, v) := by
  have hu := update_nominate fresh m hc
  have hg : ¬ (i < fresh.rnd ∨ i = fresh.vrnd) := by
    simp only [fresh]; omega
  simp only [hd, hg, if_false] at hu
  refine ⟨?_, voteOf_vote _ _ _ i v (decodeNominate_lt hd)⟩
  simp [acceptor, run, hu]

theorem C11_fast_path_witness :
    acceptor [nominate 1 1 "2:bar"] = (⟨2, 2, "bar"⟩, [⟨1, 0, 0, "VOTE", "2:bar"⟩]) :=
  (C11_fast_path (nominate 1 1 "2:bar") 2 "bar" (by decide) (by decide) (by decide)).1

/-- C14: for every state and every message, of any command and well-formed or
not, handling the same message a second time right after the first emits
nothing and leaves the state as the first handling left it. -/
theorem C14_duplicate_noop (st : State) (m : Msg) :
    update (update st m).1 m = ((update st m).1, []) := by
  rcases update_cases st m with hu | ⟨i, hc, hd, _, hu⟩ | ⟨i, v, hc, hd, _, _, hu⟩
  · rw [hu]
    exact hu
  · rw [hu]
    dsimp only
    have h2 := update_invite { st with rnd := i } m hc
    simpa [hd] using h2
  · rw [hu]
    dsimp only
    have h2 := update_nominate { rnd := i, vrnd := i, vval := v } m hc
    simpa [hd] using h2

/-- C15: in every state reached from the fresh acceptor, when an `INVITE` of
round `i` produces an `RSVP`, a well-formed `NOMINATE` of round `i` and value
`v` handled right after it emits exactly one message, a `VOTE` of round `i` and
value `v`, and sets the voted round to `i` and the voted value to `v`. -/
theorem C15_promised_round_nominable (ins : List Msg) (inv nom o : Msg) (i : Nat)
    (v : String) (hc : inv.Cmd = "INVITE") (hd : decodeInvite inv.Body = some i)
    (ho : o ∈ (update (acceptor ins).1 inv).2) (_hcmd : o.Cmd = "RSVP")
    (hn : nom.Cmd = "NOMINATE") (hdn : decodeNominate nom.Body = some (i, v)) :
    update (update (acceptor ins).1 inv).1 nom =
      ({ rnd := i, vrnd := i, vval := v },
       [{ Seqn := nom.Seqn, From := 0, To := 0, Cmd := "VOTE", Body := voteBody i v }]) ∧
    voteOf { Seqn := nom.Seqn, From := 0, To := 0, Cmd := "VOTE", Body := voteBody i v } =
      some (i, v) := by
  have hinv := acceptor_voted_le ins
  have hu := update_invite (acceptor ins).1 inv hc
  simp only [hd] at hu
  refine ⟨?_, voteOf_vote _ _ _ i v (decodeNominate_lt hdn)⟩
  by_cases hle : i ≤ (acceptor ins).1.rnd
  · simp only [hle, if_true] at hu
    rw [hu] at ho
    simp at ho
  · simp only [hle, if_false] at hu
    rw [hu]
    dsimp only
    have h2 := update_nominate { (acceptor ins).1 with rnd := i } nom hn
    have hne : ¬ i = (acceptor ins).1.vrnd := by omega
    simpa [hdn, hne] using h2

theorem C15_promised_round_nominable_witness :
    update (update (acceptor [nominate 1 7 "3:a"]).1 (invite 2 8 "5")).1 (nominate 3 8 "5:b") =
      (⟨5, 5, "b"⟩, [⟨3, 0, 0, "VOTE", "5:b"⟩]) :=
  (C15_promised_round_nominable [nominate 1 7 "3:a"] (invite 2 8 "5") (nominate 3 8 "5:b")
    ⟨2, 0, 8, "RSVP", "5:3:a"⟩ 5 "b" (by decide) (by decide) (by decide) (by decide)
    (by decide) (by decide)).1

/-- C17: after any finite input sequence fed to a fresh acceptor, the promised
round is the largest of `0` and the rounds of all well-formed `INVITE` and
`NOMINATE` messages of the sequence, accepted or ignored. -/
theorem C17_promise_closed_form (ins : List Msg) :
    (acceptor ins).1.rnd = maxRound (ins.filterMap inRound) := by
  have h := run_rnd ins fresh (Nat.le_refl 0)
  simpa [acceptor, fresh] using h

/-- C18: whatever finite input sequence a fresh acceptor handles, no emitted
message is a `VOTE` of round `0`, and in the state reached a voted round of `0`
comes with the empty voted value. -/
theorem C18_round_zero_never_voted (ins : List Msg) :
    (∀ o ∈ (acceptor ins).2, voteRound o ≠ some 0) ∧
    votesFor 0 (acceptor ins).2 = 0 ∧
    ((acceptor ins).1.vrnd = 0 → (acceptor ins).1.vval = "") := by
  have h0 : votesFor 0 (acceptor ins).2 = 0 :=
    (votesFor_run 0 ins fresh (Nat.le_refl 0)).2 (Or.inr rfl)
  refine ⟨?_, h0, ?_⟩
  · intro o ho
    have := List.countP_eq_zero.1 h0 o ho
    simpa using this
  · have := run_invariant (fun s => s.vrnd ≤ s.rnd ∧ (s.vrnd = 0 → s.vval = ""))
      update_keeps_zero fresh ⟨Nat.le_refl 0, fun _ => rfl⟩ ins
    exact this.2

/-- C19: two messages with the same command and body, whatever their sequence
numbers, senders and destinations, take every state to the same new state and
produce outputs with the same commands and bodies; the outputs of the second
are those of the first with the sequence number of the second and, for an
`RSVP`, the sender of the second as destination.  Each output carries the
sequence number of its input, an `RSVP` is addressed to the sender of its
input, and a `VOTE` is addressed to `0`. -/
theorem C19_envelope_independence (st : State) (m1 m2 : Msg)
    (hc : m1.Cmd = m2.Cmd) (hb : m1.Body = m2.Body) :
    (update st m1).1 = (update st m2).1 ∧
    (update st m1).2.map (fun o => (o.Cmd, o.Body)) =
      (update st m2).2.map (fun o => (o.Cmd, o.Body)) ∧
    (update st m2).2 = (update st m1).2.map (restamp m2) ∧
    (∀ o ∈ (update st m1).2, o.Seqn = m1.Seqn ∧
      (o.Cmd = "RSVP" → o.To = m1.From) ∧ (o.Cmd = "VOTE" → o.To = 0)) := by
  by_cases h1 : m1.Cmd = "INVITE"
  · have u1 := update_invite st m1 h1
    have u2 := update_invite st m2 (hc ▸ h1)
    rw [← hb] at u2
    cases hd : decodeInvite m1.Body with
    | none =>
      simp only [hd] at u1 u2
      rw [u1, u2]
      simp
    | some i =>
      simp only [hd] at u1 u2
      by_cases hle : i ≤ st.rnd
      · simp only [hle, if_true] at u1 u2
        rw [u1, u2]
        simp
      · simp only [hle, if_false] at u1 u2
        rw [u1, u2]
        simp [restamp]
  · by_cases h2 : m1.Cmd = "NOMINATE"
    · have u1 := update_nominate st m1 h2
      have u2 := update_nominate st m2 (hc ▸ h2)
      rw [← hb] at u2
      cases hd : decodeNominate m1.Body with
      | none =>
        simp only [hd] at u1 u2
        rw [u1, u2]
        simp
      | some p =>
        obtain ⟨i, v⟩ := p
        simp only [hd] at u1 u2
        by_cases hig : i < st.rnd ∨ i = st.vrnd
        · simp only [hig, if_true] at u1 u2
          rw [u1, u2]
          simp
        · simp only [hig, if_false] at u1 u2
          rw [u1, u2]
          have hne : ("VOTE" : String) ≠ "RSVP" := by decide
          simp [restamp, hne]
    · rw [update_other st m1 h1 h2, update_other st m2 (hc ▸ h1) (hc ▸ h2)]
      simp

theorem C19_envelope_independence_witness :
    (update ⟨3, 2, "w"⟩ ⟨1, 7, 0, "INVITE", "5"⟩).1 =
      (update ⟨3, 2, "w"⟩ ⟨9, 8, 4, "INVITE", "5"⟩).1 ∧
    (update ⟨3, 2, "w"⟩ ⟨9, 8, 4, "INVITE", "5"⟩).2 =
      (update ⟨3, 2, "w"⟩ ⟨1, 7, 0, "INVITE", "5"⟩).2.map (restamp ⟨9, 8, 4, "INVITE", "5"⟩) :=
  have h := C19_envelope_independence ⟨3, 2, "w"⟩ ⟨1, 7, 0, "INVITE", "5"⟩
    ⟨9, 8, 4, "INVITE", "5"⟩ (by decide) (by decide)
  ⟨h.1, h.2.2.1⟩

/-- C12: whatever finite input sequence a fresh acceptor handles, each emitted
`RSVP` reports as voted round and voted value those of the most recent `VOTE`
emitted before it, and `0` and the empty value when no `VOTE` was emitted
before it; in particular `NOMINATE 1:v` followed by `INVITE 2` yields
`VOTE 1:v` and then `RSVP 2:1:v`. -/
theorem C12_rsvp_reports_latest_vote (ins pre post : List Msg) (o : Msg)
    (h : (acceptor ins).2 = pre ++ o :: post) (hc : o.Cmd = "RSVP") :
    (∃ i, rsvpOf o = some (i, lastVote (0, "") pre)) ∧
    ((∀ x ∈ pre, x.Cmd ≠ "VOTE") → ∃ i, rsvpOf o = some (i, 0, "")) ∧
    (∀ (v : String) (s f s' f' : Nat),
      (acceptor [nominate s f ("1:" ++ v), invite s' f' "2"]).2 =
        [⟨s, 0, 0, "VOTE", "1:" ++ v⟩, ⟨s', 0, f', "RSVP", "2:1:" ++ v⟩] ∧
      voteOf ⟨s, 0, 0, "VOTE", "1:" ++ v⟩ = some (1, v) ∧
      rsvpOf ⟨s', 0, f', "RSVP", "2:1:" ++ v⟩ = some (2, 1, v)) := by
  have hl := run_rsvp_lastVote ins fresh (by simp [fresh]) pre o post h hc
  refine ⟨hl, ?_, ?_⟩
  · intro hno
    obtain ⟨i, hi⟩ := hl
    refine ⟨i, ?_⟩
    rw [hi]
    have : ∀ (l : List Msg) (acc : Nat × String), (∀ x ∈ l, x.Cmd ≠ "VOTE") →
        lastVote acc l = acc := by
      intro l
      induction l with
      | nil => intro acc _; rfl
      | cons x xs ihx =>
        intro acc hx
        have hx0 : voteOf x = none := by
          simp [voteOf, hx x (List.mem_cons_self _ _)]
        simp only [lastVote, hx0]
        exact ihx acc (fun y hy => hx y (List.mem_cons_of_mem _ hy))
    rw [this pre _ hno]
    rfl
  · intro v s f s' f'
    have hv1 : "1:" ++ v = voteBody 1 v := rfl
    have hv2 : "2:1:" ++ v = rsvpBody 2 1 v := rfl
    rw [hv1, hv2]
    have hd : decodeNominate (nominate s f (voteBody 1 v)).Body = some (1, v) :=
      decodeNominate_voteBody 1 v (by norm_num)
    have u1 := update_nominate fresh (nominate s f (voteBody 1 v)) rfl
    have hg : ¬ ((1 : Nat) < fresh.rnd ∨ 1 = fresh.vrnd) := by simp [fresh]
    simp only [hd, hg, if_false] at u1
    have hd20 : decodeInvite "2" = some 2 := by decide
    have hd2 : decodeInvite (invite s' f' "2").Body = some 2 := hd20
    have u2 := update_invite { rnd := 1, vrnd := 1, vval := v } (invite s' f' "2") rfl
    have hle : ¬ (2 ≤ ({ rnd := 1, vrnd := 1, vval := v } : State).rnd) := by simp
    simp only [hd2, hle, if_false] at u2
    refine ⟨?_, voteOf_vote _ _ _ 1 v (by norm_num),
      rsvpOf_rsvp _ _ _ 2 1 v (by norm_num) (by norm_num)⟩
    simp only [acceptor, run, u1, u2]
    rfl

theorem C12_rsvp_reports_latest_vote_witness :
    ∃ i, rsvpOf ⟨3, 0, 8, "RSVP", "9:5:b"⟩ = some (i, lastVote (0, "")
      [⟨1, 0, 0, "VOTE", "2:a"⟩, ⟨2, 0, 0, "VOTE", "5:b"⟩]) :=
  (C12_rsvp_reports_latest_vote
    [nominate 1 7 "2:a", nominate 2 7 "5:b", invite 3 8 "9", invite 4 8 "12"]
    [⟨1, 0, 0, "VOTE", "2:a"⟩, ⟨2, 0, 0, "VOTE", "5:b"⟩] [⟨4, 0, 8, "RSVP", "12:5:b"⟩]
    ⟨3, 0, 8, "RSVP", "9:5:b"⟩ (by decide) (by decide)).1

/-- C13: whatever finite input sequence a fresh acceptor handles, every emitted
message carries a round and these rounds are non-decreasing in emission order:
after an `RSVP` or `VOTE` of round `r`, no `RSVP` or `VOTE` of a lower round is
emitted. -/
theorem C13_never_renege (ins : List Msg) :
    List.Pairwise (fun a b => a ≤ b) ((acceptor ins).2.filterMap outRound) ∧
    (∀ o ∈ (acceptor ins).2, (outRound o).isSome) :=
  have h := run_outRounds ins fresh (by simp [fresh])
  ⟨h.2.2, h.1⟩

/-- C16, as stated, fails: the fresh acceptor has promised round `0` and has
emitted no `VOTE`, yet the well-formed `NOMINATE 0:v`, whose round `0` is at
least the promised round, produces no `VOTE`. -/
theorem C16_counterexample :
    (nominate 1 7 "0:v").Cmd = "NOMINATE" ∧
    decodeNominate (nominate 1 7 "0:v").Body = some (0, "v") ∧
    0 ≥ (acceptor []).1.rnd ∧
    votesFor 0 (acceptor []).2 = 0 ∧
    update (acceptor []).1 (nominate 1 7 "0:v") = ((acceptor []).1, []) := by
  decide

/-- C16, amended: in every state reached from the fresh acceptor, a well-formed
`NOMINATE` of round `i` and value `v` with `i` at least the promised round and
`i ≥ 1` makes the acceptor emit `VOTE(i, v)` and move to `(i, i, v)` when no
`VOTE` of round `i` was emitted earlier in the run, and is ignored when one
was. -/
theorem C16_nomination_needs_only_promise (ins : List Msg) (nom : Msg) (i : Nat)
    (v : String) (hc : nom.Cmd = "NOMINATE")
    (hd : decodeNominate nom.Body = some (i, v))
    (hge : i ≥ (acceptor ins).1.rnd) (hi : 1 ≤ i) :
    (votesFor i (acceptor ins).2 = 0 →
      update (acceptor ins).1 nom =
        ({ rnd := i, vrnd := i, vval := v },
         [{ Seqn := nom.Seqn, From := 0, To := 0, Cmd := "VOTE", Body := voteBody i v }]) ∧
      voteOf { Seqn := nom.Seqn, From := 0, To := 0, Cmd := "VOTE", Body := voteBody i v } =
        some (i, v)) ∧
    (votesFor i (acceptor ins).2 ≠ 0 →
      update (acceptor ins).1 nom = ((acceptor ins).1, [])) := by
  have hlt := decodeNominate_lt hd
  have hu := update_nominate (acceptor ins).1 nom hc
  simp only [hd] at hu
  constructor
  · intro h0
    have hne : ¬ i = (acceptor ins).1.vrnd := by
      intro he
      rcases acceptor_voted_was_voted ins with hz | hp
      · omega
      · rw [← he] at hp
        omega
    have hg : ¬ (i < (acceptor ins).1.rnd ∨ i = (acceptor ins).1.vrnd) := by
      rintro (h | h)
      · omega
      · exact hne h
    simp only [hg, if_false] at hu
    exact ⟨hu, voteOf_vote _ _ _ i v hlt⟩
  · intro h1
    by_cases hg : i < (acceptor ins).1.rnd ∨ i = (acceptor ins).1.vrnd
    · simpa [hg] using hu
    · exfalso
      simp only [hg, if_false] at hu
      have h2 := (votesFor_run i (ins ++ [nom]) fresh (Nat.le_refl 0)).1
      have hv : votesFor i [(⟨nom.Seqn, 0, 0, "VOTE", voteBody i v⟩ : Msg)] = 1 := by
        simp [votesFor, voteRound_vote _ _ _ i v hlt]
      have hrun : (run fresh (ins ++ [nom])).2 =
          (acceptor ins).2 ++ [(⟨nom.Seqn, 0, 0, "VOTE", voteBody i v⟩ : Msg)] := by
        rw [run_append]
        simp only [run, List.append_nil]
        change (acceptor ins).2 ++ (update (acceptor ins).1 nom).2 = _
        rw [hu]
      rw [hrun, votesFor_append, hv] at h2
      omega

theorem C16_nomination_needs_only_promise_witness :
    update (acceptor [invite 1 7 "2", nominate 2 7 "2:a", nominate 3 7 "4:b"]).1
        (nominate 4 7 "6:c") =
      (⟨6, 6, "c"⟩, [⟨4, 0, 0, "VOTE", "6:c"⟩]) :=
  ((C16_nomination_needs_only_promise
    [invite 1 7 "2", nominate 2 7 "2:a", nominate 3 7 "4:b"] (nominate 4 7 "6:c") 6 "c"
    (by decide) (by decide) (by decide) (by decide)).1 (by decide)).1

end Paxos
